import Mathlib

/-
Verification development for the ACO route-finder core
(graph construction, simplification, distance oracle, ACO tour loop).

Shallow embedding conventions:
* Coordinates (Python float pairs used only as node identities and as inputs
  to an external geodesic primitive) are modelled as pairs of rationals.
* A networkx MultiGraph is a list of nodes (dict-key insertion order) plus a
  list of weighted undirected edges; parallel edges are allowed.
* The external geodesic primitive is a parameter geo returning exact lengths.
* Fallible Python code is modelled with Option / Except.
-/

abbrev Coord : Type := ℚ × ℚ

/-- Extended distances: float values with the IEEE infinity used by the code
    (float(inf)) modelled as the top element.  Finite weights are modelled as
    exact integers: the claims involve weights only through addition, minimum
    and order comparison. -/
abbrev XDist : Type := WithTop ℤ

/-- networkx MultiGraph: node list in insertion order, and the multiset of
    undirected weighted edges in insertion order.  An edge (u, v, w) is
    incident to u and v and carries weight w. -/
structure MultiGraph where
  nodes : List Coord
  edges : List (Coord × Coord × ℤ)
deriving DecidableEq

/-- networkx adds a node to its node dict only if absent (insertion order kept). -/
def addNode (l : List Coord) (x : Coord) : List Coord :=
  if x ∈ l then l else l ++ [x]

/-- graph.add_edge(u, v, weight) : both endpoints are inserted into the node
    dict if absent (u first), and a new parallel edge is appended. -/
def MultiGraph.add_edge (g : MultiGraph) (u v : Coord) (w : ℤ) : MultiGraph :=
  { nodes := addNode (addNode g.nodes u) v, edges := g.edges ++ [(u, v, w)] }

/-- Multigraph degree of a node: number of incident edge endpoints
    (a parallel edge counts once per copy, a self-loop counts twice). -/
def MultiGraph.degree (g : MultiGraph) (x : Coord) : Nat :=
  g.edges.countP (fun e => decide (e.1 = x)) + g.edges.countP (fun e => decide (e.2.1 = x))

/-- graph.neighbors(x): distinct adjacent nodes, in first-edge insertion order
    (networkx adjacency dict). -/
def MultiGraph.nbrs (g : MultiGraph) (x : Coord) : List Coord :=
  g.edges.foldl
    (fun acc e =>
      if e.1 = x then (if e.2.1 ∈ acc then acc else acc ++ [e.2.1])
      else if e.2.1 = x then (if e.1 ∈ acc then acc else acc ++ [e.1])
      else acc)
    []

/-- Removing a set of nodes removes them from the node dict together with all
    incident edges (networkx remove_node / remove_nodes_from, batched: the
    removed names are fixed up front). -/
def MultiGraph.removeNodes (g : MultiGraph) (s : List Coord) : MultiGraph :=
  { nodes := g.nodes.filter (fun x => decide (x ∉ s)),
    edges := g.edges.filter (fun e => decide (e.1 ∉ s ∧ e.2.1 ∉ s)) }

/-- nx.isolates: nodes of degree 0. -/
def MultiGraph.isolates (g : MultiGraph) : List Coord :=
  g.nodes.filter (fun x => decide (g.degree x = 0))

/-- Edge endpoints of a well-formed networkx graph are registered nodes
    (add_edge inserts both endpoints, so every graph the library builds
    satisfies this). -/
def MultiGraph.WF (g : MultiGraph) : Prop :=
  ∀ e ∈ g.edges, e.1 ∈ g.nodes ∧ e.2.1 ∈ g.nodes

/- ------------------------------------------------------------------
   GraphBuilder: create_road_network_graph (src/src/graph_utils.py 6-62)
   ------------------------------------------------------------------ -/

/-- add_edge_with_weight (graph_utils.py 26-30): skip the pair if the two
    coordinates coincide, otherwise add one edge weighted by the external
    geodesic primitive. -/
def add_edge_with_weight (geo : Coord → Coord → ℤ) (g : MultiGraph) (u v : Coord) :
    MultiGraph :=
  if u = v then g else g.add_edge u v (geo u v)

/-- One segment: an edge for each pair of consecutive points
    (graph_utils.py 41-49). -/
def addSegmentEdges (geo : Coord → Coord → ℤ) (g : MultiGraph) (pts : List Coord) :
    MultiGraph :=
  (pts.zip pts.tail).foldl (fun h p => add_edge_with_weight geo h p.1 p.2) g

/-- The graph grown from all segments, skipping segments with fewer than two
    points (graph_utils.py 35-49). -/
def buildGraph (geo : Coord → Coord → ℤ) (segments : List (List Coord)) : MultiGraph :=
  segments.foldl
    (fun g seg => if seg.length < 2 then g else addSegmentEdges geo g seg)
    { nodes := [], edges := [] }

/-- create_road_network_graph (graph_utils.py 6-62): None for an empty segment
    list, None if the built graph has zero nodes or zero edges, otherwise the
    built multigraph. -/
def create_road_network_graph (geo : Coord → Coord → ℤ) (segments : List (List Coord)) :
    Option MultiGraph :=
  if segments = [] then none
  else
    let g := buildGraph geo segments
    if g.nodes.length = 0 ∨ g.edges.length = 0 then none else some g

/- ------------------------------------------------------------------
   GraphSimplifier: simplify_graph (src/src/graph_utils.py 64-168)
   ------------------------------------------------------------------ -/

/-- Insert x into a list already sorted by key, before any later element of
    equal key: together with stableSortByKey this is a stable ascending sort,
    the behaviour of Python sorted(..., key=lambda x: x[1]). -/
def insSorted (key : α → Nat) (x : α) : List α → List α
  | [] => [x]
  | y :: ys => if key y < key x then y :: insSorted key x ys else x :: y :: ys

/-- Stable ascending sort by a Nat key (Python sorted with key). -/
def stableSortByKey (key : α → Nat) : List α → List α
  | [] => []
  | x :: xs => insSorted key x (stableSortByKey key xs)

/-- sorted(simplified.degree(), key=lambda x: x[1]) (graph_utils.py 143): the
    nodes listed in ascending degree order, ties kept in node order. -/
def pruneOrder (g : MultiGraph) : List Coord :=
  (stableSortByKey (fun p => p.2) (g.nodes.map (fun x => (x, g.degree x)))).map (fun p => p.1)

/-- Step 4 (graph_utils.py 141-155): remove the first k nodes of the
    low-degree-first order (with their incident edges). -/
def pruneStep (g : MultiGraph) (k : Nat) : MultiGraph :=
  g.removeNodes ((pruneOrder g).take k)

/-- The exception raised by the pass-through contraction: graph_utils.py 127
    evaluates
      min(d.get(weight, 1.0) for u, v, d in simplified.edges(node, neighbors[0], data=True))
    but the networkx (Multi)EdgeView call signature is
    (nbunch=None, data=False, keys=False, default=None), so neighbors[0] is
    bound positionally to the data parameter and the keyword data=True repeats
    it: Python raises TypeError before any contraction happens, and
    simplify_graph has no handler for it. -/
def tyErr : String :=
  "TypeError: edges() got multiple values for argument data"

/-- Step 3 loop over the pass-through nodes (graph_utils.py 111-138).  For each
    node, in encounter order: break once the budget is met; skip nodes already
    gone; skip nodes that no longer have exactly two distinct neighbors; any
    node actually entering the contraction branch raises the TypeError above,
    before mutating the working graph. -/
def passLoop (maxNodes : Nat) : List Coord → MultiGraph → Except String MultiGraph
  | [], s => .ok s
  | node :: rest, s =>
    if s.nodes.length ≤ maxNodes then .ok s
    else if node ∈ s.nodes then
      if (s.nbrs node).length ≠ 2 then passLoop maxNodes rest s
      else .error tyErr
    else passLoop maxNodes rest s

/-- Steps 4 and the final cleanup (graph_utils.py 140-162): if still over
    budget, prune the lowest-degree nodes down to the budget, then drop any
    node left isolated. -/
def postPrune (mx : Nat) (s : MultiGraph) : MultiGraph :=
  let s2 := if mx < s.nodes.length then pruneStep s (s.nodes.length - mx) else s
  s2.removeNodes s2.isolates

/-- simplify_graph (graph_utils.py 64-168) on a non-None graph.  Exceptions
    escaping the Python function are modelled as Except.error.  The
    junction-node list of step 1 (line 98) is computed by the source only to
    be logged — it influences nothing — and is not represented.  The
    pass-through list of step 2 (line 103) is the degree-2 nodes in node
    order, taken on the working copy before the loop. -/
def simplify_graph (g : MultiGraph) (_junction_degree_threshold maxNodes : Nat) :
    Except String MultiGraph :=
  if g.nodes.length ≤ maxNodes then .ok g
  else
    match passLoop maxNodes (g.nodes.filter (fun x => decide (g.degree x = 2))) g with
    | .error e => .error e
    | .ok s => .ok (postPrune maxNodes s)

/- ------------------------------------------------------------------
   DistanceOracle: distance_callback (src/src/solvers/aco_solver.py 48-71)

   nx.shortest_path_length(graph, u, v, weight) is an external library
   primitive; it returns the minimum, over walks from u to v in the
   undirected multigraph, of the summed edge weights (parallel edges
   contribute their individual weights, so effectively the cheapest parallel
   edge is used on each hop).  It is embedded as the |nodes|-th min-plus
   matrix power of the one-step matrix, which computes exactly the minimum
   weight over walks of at most |nodes| edges; for the nonnegative weights
   the program uses this is the shortest-path distance, with "no path"
   surfacing as the top element.
   ------------------------------------------------------------------ -/

/-- Minimum of a list of extended distances (top for the empty list). -/
def listMin (l : List XDist) : XDist := l.foldr min ⊤

/-- Weights of the parallel edges joining u and v, in either orientation. -/
def edgesBetween (g : MultiGraph) (u v : Coord) : List ℤ :=
  (g.edges.filter (fun e => decide ((e.1 = u ∧ e.2.1 = v) ∨ (e.1 = v ∧ e.2.1 = u)))).map
    (fun e => e.2.2)

/-- One-step matrix: cheapest direct edge between two coordinates. -/
def aMat (g : MultiGraph) (u v : Coord) : XDist :=
  listMin ((edgesBetween g u v).map (fun w => (w : XDist)))

/-- Min-plus identity matrix: empty walks. -/
def diagMat (u v : Coord) : XDist := if u = v then 0 else ⊤

/-- One hop or stay: the matrix whose n-th min-plus power is the min weight
    over walks of at most n edges. -/
def bMat (g : MultiGraph) (u v : Coord) : XDist := min (diagMat u v) (aMat g u v)

/-- Min-plus matrix product with the middle index ranging over a node list. -/
def matMulOn (ns : List Coord) (f h : Coord → Coord → XDist) (u v : Coord) : XDist :=
  listMin (ns.map (fun x => f u x + h x v))

/-- Min-plus powers of bMat: dPow g k u v is the minimum weight of a walk of
    at most k edges from u to v through the graph's nodes. -/
def dPow (g : MultiGraph) : Nat → Coord → Coord → XDist
  | 0 => diagMat
  | k + 1 => matMulOn g.nodes (dPow g k) (bMat g)

/-- Weighted shortest-path distance between two coordinates
    (nx.shortest_path_length with weight); top when no path exists,
    which the callback turns into float(inf). -/
def shortest_path_length (g : MultiGraph) (u v : Coord) : XDist :=
  dPow g g.nodes.length u v

/-- Lookup in the memoization dict, keyed by ordered integer pairs. -/
def lookupPair (cache : List ((Nat × Nat) × XDist)) (k : Nat × Nat) : Option XDist :=
  match cache with
  | [] => none
  | (k', v) :: rest => if k' = k then some v else lookupPair rest k

/-- distance_callback (aco_solver.py 49-71) with its memoization dict threaded
    explicitly.  Both key orders are probed (lines 50-53); equal coordinates
    return 0.0 before any graph query (58-59); a successful shortest-path
    query is stored under the (start, end) key (63-65); an unreachable pair
    (or any library error) yields float(inf) and is not cached (66-71). -/
def distance_callback (g : MultiGraph) (coordOf : Nat → Coord)
    (cache : List ((Nat × Nat) × XDist)) (s e : Nat) :
    XDist × List ((Nat × Nat) × XDist) :=
  match lookupPair cache (s, e) with
  | some v => (v, cache)
  | none =>
    match lookupPair cache (e, s) with
    | some v => (v, cache)
    | none =>
      if coordOf s = coordOf e then (0, cache)
      else
        let len := shortest_path_length g (coordOf s) (coordOf e)
        if len = ⊤ then (⊤, cache) else (len, cache ++ [((s, e), len)])

/- ------------------------------------------------------------------
   TourOptimizer: solve_route_with_aco (src/src/solvers/aco_solver.py 18-187)

   The pants library (World, Colony, ants, pheromone updates) is an external
   collaborator: its observable contribution to the repository code under
   verification is, per iteration, the list of ant tours it reports through
   colony.get_ants().  That is abstracted as a schedule
   Nat -> List (List Nat) of integer-index tours, and an ant's reported
   distance (ant.distance) is the cyclic tour length costed by the world's
   length function lfunc = distance_callback, matching the TSP semantics of
   the library.  Everything below the abstraction boundary — the < 2 node
   rejection, start-node selection, best-tour tracking, early stopping, the
   falsiness check on the result, tour closing and mapping back to
   coordinates — is the repository's own code, modelled line by line
   (the show_progress=True branch, which the claims cite).
   ------------------------------------------------------------------ -/

/-- int_to_node composed with the dense indexing of graph.nodes
    (aco_solver.py 41-43). -/
def coordOf (g : MultiGraph) (i : Nat) : Coord := g.nodes.getD i (0, 0)

/-- The pure value of the world's length function between two node indices:
    what distance_callback returns for them (memoization is
    value-transparent). -/
def lfunc (g : MultiGraph) (i j : Nat) : XDist :=
  if coordOf g i = coordOf g j then 0 else shortest_path_length g (coordOf g i) (coordOf g j)

/-- Summed transition distances along a list of node indices. -/
def pathDist (d : Nat → Nat → XDist) : List Nat → XDist
  | a :: b :: rest => d a b + pathDist d (b :: rest)
  | _ => 0

/-- ant.distance: the closed-tour length of an ant's tour (the library's TSP
    tours return to their starting node). -/
def cycleDist (d : Nat → Nat → XDist) (t : List Nat) : XDist :=
  match t with
  | [] => 0
  | h :: _ => pathDist d (t ++ [h])

/-- Elitist tracking state: best tour so far, its distance, and the iteration
    of the last improvement (aco_solver.py 110-113). -/
structure AcoState where
  best : Option (List Nat)
  bestDist : XDist
  lastImp : Nat
deriving DecidableEq

/-- The inner ant loop of one iteration (aco_solver.py 133-137): each ant
    whose distance strictly improves on the best-so-far replaces it and
    records the current iteration as the last improvement. -/
def stepAnts (d : Nat → Nat → XDist) (i : Nat) (tours : List (List Nat)) (s : AcoState) :
    AcoState :=
  tours.foldl
    (fun st t => if cycleDist d t < st.bestDist then ⟨some t, cycleDist d t, i⟩ else st)
    s

/-- Result of the iteration loop: final tracking state, number of iterations
    run, and the 0-based iteration index at which the loop broke early, if
    it did. -/
structure LoopResult where
  state : AcoState
  itersRun : Nat
  stoppedAt : Option Nat
deriving DecidableEq

/-- The iteration loop (aco_solver.py 117-148) over the remaining iteration
    indices of range(num_iterations): run the ants, then break when no
    improvement happened for more than num_iterations // 5 rounds and more
    than num_iterations // 2 iterations have passed; the break on line 148 is
    the only exit before the range is exhausted. -/
def acoLoopGo (d : Nat → Nat → XDist) (numIter : Nat) (schedule : Nat → List (List Nat)) :
    List Nat → AcoState → LoopResult
  | [], s => ⟨s, numIter, none⟩
  | i :: rest, s =>
    let s' := stepAnts d i (schedule i) s
    if numIter / 5 < i - s'.lastImp ∧ numIter / 2 < i then ⟨s', i + 1, some i⟩
    else acoLoopGo d numIter schedule rest s'

/-- The iteration loop started from iteration 0 with no best tour and an
    infinite best distance (aco_solver.py 111-117). -/
def runAcoLoop (d : Nat → Nat → XDist) (numIter : Nat) (schedule : Nat → List (List Nat)) :
    LoopResult :=
  acoLoopGo d numIter schedule (List.range numIter) ⟨none, ⊤, 0⟩

/-- Start-node selection (aco_solver.py 78-86): an in-range explicit index is
    used as is; otherwise random.choice over range(num_nodes), modelled by an
    externally supplied pick reduced modulo the node count. -/
def effectiveStartIdx (numNodes : Nat) (startIdx : Option Nat) (randPick : Nat) : Nat :=
  match startIdx with
  | none => randPick % numNodes
  | some s => if s < numNodes then s else randPick % numNodes

/-- Closing the best tour (aco_solver.py 170-171): if its first and last
    entries differ, append the first. -/
def closeTour : List Nat → List Nat
  | [] => []
  | h :: rest => if (h :: rest).getLast? = some h then h :: rest else (h :: rest) ++ [h]

/-- Lines 166-181: a falsy best tour (None or the empty list) is reported as
    failure; otherwise the tour is closed and its indices are mapped back to
    coordinates. -/
def finishTour (g : MultiGraph) (best : Option (List Nat)) : Option (List Coord) :=
  match best with
  | none => none
  | some t => if t = [] then none else some ((closeTour t).map (coordOf g))

/-- solve_route_with_aco (aco_solver.py 18-187), show_progress branch: reject
    graphs with fewer than two nodes (36-38); compute the effective start
    index (78-86) — the source never feeds it to the solver or colony, it is
    only printed, so the binding below is (faithfully) unused; run the
    iteration loop; fail on a falsy best tour (166-168); close the tour and
    map indices back to coordinates (170-181). -/
def solve_route_with_aco (g : MultiGraph) (numIter : Nat) (startIdx : Option Nat)
    (randPick : Nat) (schedule : Nat → List (List Nat)) : Option (List Coord) :=
  if g.nodes.length < 2 then none
  else
    let _effStart := effectiveStartIdx g.nodes.length startIdx randPick
    finishTour g (runAcoLoop (lfunc g) numIter schedule).state.best

/- ------------------------------------------------------------------
   Concrete instances used to evaluate the definitions.
   ------------------------------------------------------------------ -/

/-- Constant external geodesic primitive used in the concrete instances. -/
def geoOne : Coord → Coord → ℤ := fun _ _ => 1

def pA : Coord := (0, 0)

def pB : Coord := (0, 1)

def pC : Coord := (0, 2)

def pD : Coord := (5, 5)

def pE : Coord := (5, 6)

def pF : Coord := (9, 9)

/-- Three-node path A-B-C: the interior node B is a pass-through node. -/
def gPath : MultiGraph := buildGraph geoOne [[pA, pB, pC]]

/-- Triangle on A, B, C (a closed three-point segment). -/
def gTri : MultiGraph := buildGraph geoOne [[pA, pB, pC, pA]]

/-- A lone node with no incident edge (networkx graphs admit such nodes via
    add_node). -/
def gIso : MultiGraph := { nodes := [pA], edges := [] }

/-- Six nodes forming three disjoint edges: over a budget of 4 nodes with no
    degree-2 node, so simplification reaches the low-degree pruning step. -/
def gSix : MultiGraph := buildGraph geoOne [[pA, pB], [pC, pF], [pD, pE]]

/-- Disconnected graph: edges A-B and D-E in separate components. -/
def gDisc : MultiGraph := buildGraph geoOne [[pA, pB], [pD, pE]]

/-- The value simplify_graph returns on gSix with budget 4: the stable
    low-degree-first prune removes A and B (all degrees tie at 1, so node
    order decides), taking the A-B edge with them; no isolates remain. -/
def gSixRes : MultiGraph :=
  { nodes := [pC, pF, pD, pE], edges := [(pC, pF, 1), (pD, pE, 1)] }

/-- A schedule whose only ant reports the incomplete tour [0, 1]. -/
def schedIncomplete : Nat → List (List Nat) := fun _ => [[0, 1]]

/-- A schedule whose only ant reports the complete tour [0, 1, 2]. -/
def schedFull3 : Nat → List (List Nat) := fun _ => [[0, 1, 2]]

/-- A schedule whose only ant reports the complete tour [0, 1, 2, 3]. -/
def schedFull4 : Nat → List (List Nat) := fun _ => [[0, 1, 2, 3]]

/-- A schedule with no ants at all: nothing ever improves the best tour. -/
def schedEmpty : Nat → List (List Nat) := fun _ => []

/-- A trivial all-infinite distance function. -/
def dTop : Nat → Nat → XDist := fun _ _ => ⊤

/-- Component indicator of gDisc under its node indexing: indices 0 and 1
    (A, B) against indices 2 and 3 (D, E). -/
def compDisc : Nat → Bool := fun i => decide (i < 2)

/- ------------------------------------------------------------------
   Algebra of listMin and the min-plus product, leading to symmetry of the
   shortest-path matrix powers.
   ------------------------------------------------------------------ -/

theorem listMin_nil : listMin [] = ⊤ := rfl

theorem listMin_cons (a : XDist) (l : List XDist) :
    listMin (a :: l) = min a (listMin l) := rfl

theorem add_listMin (c : XDist) (l : List XDist) :
    c + listMin l = listMin (l.map (fun x => c + x)) := by
  induction l with
  | nil => simp [listMin]
  | cons a t ih =>
    simp only [listMin_cons, List.map_cons]
    rw [← ih, min_add_add_left]

theorem listMin_add (l : List XDist) (c : XDist) :
    listMin l + c = listMin (l.map (fun x => x + c)) := by
  induction l with
  | nil => simp [listMin]
  | cons a t ih =>
    simp only [listMin_cons, List.map_cons]
    rw [← ih, min_add_add_right]

theorem listMin_map_min (f g : α → XDist) (l : List α) :
    listMin (l.map (fun x => min (f x) (g x))) =
      min (listMin (l.map f)) (listMin (l.map g)):= by
  induction l with
  | nil => simp [listMin]
  | cons a t ih =>
    simp only [List.map_cons, listMin_cons, ih]
    rw [min_min_min_comm]

theorem listMin_map_top (l : List α) : listMin (l.map (fun _ => (⊤ : XDist))) = ⊤ := by
  induction l with
  | nil => rfl
  | cons a t ih => rw [List.map_cons, listMin_cons, ih]; exact min_self ⊤

theorem listMin_swap (F : α → β → XDist) (L : List α) (M : List β) :
    listMin (M.map (fun y => listMin (L.map (fun x => F x y)))) =
      listMin (L.map (fun x => listMin (M.map (fun y => F x y)))) := by
  induction M with
  | nil =>
    simp only [List.map_nil, listMin_nil]
    exact (listMin_map_top L).symm
  | cons b M' ih =>
    simp only [List.map_cons, listMin_cons, ih]
    exact (listMin_map_min (fun x => F x b) (fun x => listMin (M'.map (fun y => F x y))) L).symm

theorem matMul_assoc (ns : List Coord) (f g h : Coord → Coord → XDist) (u v : Coord) :
    matMulOn ns (matMulOn ns f g) h u v = matMulOn ns f (matMulOn ns g h) u v := by
  unfold matMulOn
  have l1 : (fun y => listMin (ns.map (fun x => f u x + g x y)) + h y v)
      = (fun y => listMin (ns.map (fun x => (f u x + g x y) + h y v))) :=
    funext (fun y => listMin_add _ _ |>.trans (by rw [List.map_map]; rfl))
  have l2 : (fun x => f u x + listMin (ns.map (fun y => g x y + h y v)))
      = (fun x => listMin (ns.map (fun y => f u x + (g x y + h y v)))) :=
    funext (fun x => add_listMin _ _ |>.trans (by rw [List.map_map]; rfl))
  rw [l1, l2, listMin_swap (fun x y => (f u x + g x y) + h y v) ns ns]
  have l3 : (fun x => listMin (ns.map (fun y => (f u x + g x y) + h y v)))
      = (fun x => listMin (ns.map (fun y => f u x + (g x y + h y v)))) :=
    funext (fun x => by
      rw [show (fun y => (f u x + g x y) + h y v) = (fun y => f u x + (g x y + h y v)) from
        funext (fun y => add_assoc _ _ _)])
  rw [l3]

theorem listMin_diag_add (ns : List Coord) (f : Coord → Coord → XDist) (u v : Coord) :
    listMin (ns.map (fun x => diagMat u x + f x v)) = if u ∈ ns then f u v else ⊤ := by
  induction ns with
  | nil => simp [listMin]
  | cons a t ih =>
    simp only [List.map_cons, listMin_cons, ih]
    by_cases hau : u = a
    · subst hau
      have hd : diagMat u u = 0 := by simp [diagMat]
      rw [hd, zero_add, if_pos (List.mem_cons_self u t)]
      by_cases hm : u ∈ t
      · rw [if_pos hm, min_self]
      · rw [if_neg hm]; exact min_eq_left le_top
    · have hd : diagMat u a = ⊤ := by simp [diagMat, hau]
      rw [hd, top_add, min_comm, min_eq_left le_top]
      simp [List.mem_cons, hau]

theorem listMin_add_diag (ns : List Coord) (f : Coord → Coord → XDist) (u v : Coord) :
    listMin (ns.map (fun x => f u x + diagMat x v)) = if v ∈ ns then f u v else ⊤ := by
  induction ns with
  | nil => simp [listMin]
  | cons a t ih =>
    simp only [List.map_cons, listMin_cons, ih]
    by_cases hav : a = v
    · subst hav
      have hd : diagMat a a = 0 := by simp [diagMat]
      rw [hd, add_zero, if_pos (List.mem_cons_self a t)]
      by_cases hm : a ∈ t
      · rw [if_pos hm, min_self]
      · rw [if_neg hm]; exact min_eq_left le_top
    · have hd : diagMat a v = ⊤ := by simp [diagMat, hav]
      rw [hd, add_top, min_comm, min_eq_left le_top]
      have hva : ¬ v = a := fun h => hav h.symm
      simp [List.mem_cons, hva]

theorem edgesBetween_symm (g : MultiGraph) (u v : Coord) :
    edgesBetween g u v = edgesBetween g v u := by
  have hp : (fun (e : Coord × Coord × ℤ) => decide ((e.1 = u ∧ e.2.1 = v) ∨ (e.1 = v ∧ e.2.1 = u)))
      = (fun (e : Coord × Coord × ℤ) => decide ((e.1 = v ∧ e.2.1 = u) ∨ (e.1 = u ∧ e.2.1 = v))) :=
    funext fun e => decide_eq_decide.mpr or_comm
  unfold edgesBetween
  rw [hp]

theorem aMat_symm (g : MultiGraph) (u v : Coord) : aMat g u v = aMat g v u := by
  unfold aMat
  rw [edgesBetween_symm]

theorem diagMat_symm (u v : Coord) : diagMat u v = diagMat v u := by
  unfold diagMat
  by_cases h : u = v
  · rw [if_pos h, if_pos h.symm]
  · rw [if_neg h, if_neg (fun h2 => h h2.symm)]

theorem bMat_symm (g : MultiGraph) (u v : Coord) : bMat g u v = bMat g v u := by
  unfold bMat
  rw [aMat_symm, diagMat_symm]

theorem edgesBetween_nil (g : MultiGraph) (hwf : g.WF) (u v : Coord)
    (h : u ∉ g.nodes ∨ v ∉ g.nodes) : edgesBetween g u v = [] := by
  unfold edgesBetween
  rw [List.map_eq_nil_iff, List.filter_eq_nil_iff]
  intro e he
  simp only [decide_eq_true_eq]
  rintro (⟨h1, h2⟩ | ⟨h1, h2⟩)
  · rcases hwf e he with ⟨hn1, hn2⟩
    rcases h with hh | hh
    · exact hh (h1 ▸ hn1)
    · exact hh (h2 ▸ hn2)
  · rcases hwf e he with ⟨hn1, hn2⟩
    rcases h with hh | hh
    · exact hh (h2 ▸ hn2)
    · exact hh (h1 ▸ hn1)

theorem aMat_top_of_not_mem (g : MultiGraph) (hwf : g.WF) (u v : Coord)
    (h : u ∉ g.nodes ∨ v ∉ g.nodes) : aMat g u v = ⊤ := by
  unfold aMat
  rw [edgesBetween_nil g hwf u v h]
  rfl

theorem bMat_top_of_not_mem (g : MultiGraph) (hwf : g.WF) (u v : Coord) (huv : u ≠ v)
    (h : u ∉ g.nodes ∨ v ∉ g.nodes) : bMat g u v = ⊤ := by
  unfold bMat
  rw [aMat_top_of_not_mem g hwf u v h]
  unfold diagMat
  rw [if_neg huv]
  exact min_self ⊤

theorem bMul_dPow_comm (g : MultiGraph) (hwf : g.WF) :
    ∀ k u v, matMulOn g.nodes (bMat g) (dPow g k) u v
      = matMulOn g.nodes (dPow g k) (bMat g) u v := by
  intro k
  induction k with
  | zero =>
    intro u v
    show matMulOn g.nodes (bMat g) diagMat u v = matMulOn g.nodes diagMat (bMat g) u v
    unfold matMulOn
    rw [listMin_add_diag, listMin_diag_add]
    by_cases hu : u ∈ g.nodes
    · by_cases hv : v ∈ g.nodes
      · rw [if_pos hu, if_pos hv]
      · have huv : u ≠ v := fun h => hv (h ▸ hu)
        rw [if_pos hu, if_neg hv, bMat_top_of_not_mem g hwf u v huv (Or.inr hv)]
    · by_cases hv : v ∈ g.nodes
      · have huv : u ≠ v := fun h => hu (h.symm ▸ hv)
        rw [if_neg hu, if_pos hv, bMat_top_of_not_mem g hwf u v huv (Or.inl hu)]
      · rw [if_neg hu, if_neg hv]
  | succ k ih =>
    intro u v
    have hfun : matMulOn g.nodes (bMat g) (dPow g k) = matMulOn g.nodes (dPow g k) (bMat g) :=
      funext fun a => funext fun b => ih a b
    show matMulOn g.nodes (bMat g) (matMulOn g.nodes (dPow g k) (bMat g)) u v
      = matMulOn g.nodes (matMulOn g.nodes (dPow g k) (bMat g)) (bMat g) u v
    rw [← matMul_assoc, hfun]

theorem dPow_symm (g : MultiGraph) (hwf : g.WF) :
    ∀ k u v, dPow g k u v = dPow g k v u := by
  intro k
  induction k with
  | zero => exact fun u v => diagMat_symm u v
  | succ k ih =>
    intro u v
    show matMulOn g.nodes (dPow g k) (bMat g) u v = matMulOn g.nodes (dPow g k) (bMat g) v u
    rw [← bMul_dPow_comm g hwf k u v]
    unfold matMulOn
    have hfun : (fun x => dPow g k v x + bMat g x u) = (fun x => bMat g u x + dPow g k x v) :=
      funext fun x => by rw [ih v x, bMat_symm g x u, add_comm]
    rw [hfun]

/-- The external shortest-path primitive is symmetric on well-formed graphs,
    the distances being those of an undirected network. -/
theorem shortest_path_length_symm (g : MultiGraph) (hwf : g.WF) (u v : Coord) :
    shortest_path_length g u v = shortest_path_length g v u :=
  dPow_symm g hwf g.nodes.length u v

theorem distance_callback_val (g : MultiGraph) (cf : Nat → Coord) (x y : Nat) :
    (distance_callback g cf [] x y).1
      = if cf x = cf y then 0 else shortest_path_length g (cf x) (cf y) := by
  by_cases h : cf x = cf y
  · simp [distance_callback, lookupPair, h]
  · by_cases ht : shortest_path_length g (cf x) (cf y) = ⊤
    · simp [distance_callback, lookupPair, h, ht]
    · simp [distance_callback, lookupPair, h, ht]

/-- Claim C7: for any two node indices the distance oracle is symmetric and
    zero on the diagonal, and a computed result is stored so that the
    opposite query order finds it in the cache, returning the same value and
    leaving the cache unchanged. -/
theorem claim_C7_oracle_symm (g : MultiGraph) (hwf : g.WF) (cf : Nat → Coord) (a b : Nat) :
    (distance_callback g cf [] a b).1 = (distance_callback g cf [] b a).1
    ∧ (distance_callback g cf [] a a).1 = 0
    ∧ (∀ v c', a ≠ b → distance_callback g cf [] a b = (v, c') →
        distance_callback g cf c' b a = (v, c')) := by
  refine ⟨?_, ?_, ?_⟩
  · rw [distance_callback_val g cf a b, distance_callback_val g cf b a]
    by_cases h : cf a = cf b
    · rw [if_pos h, if_pos h.symm]
    · rw [if_neg h, if_neg (fun h2 => h h2.symm),
        shortest_path_length_symm g hwf (cf a) (cf b)]
  · rw [distance_callback_val g cf a a, if_pos rfl]
  · intro v c' hab heq
    by_cases h : cf a = cf b
    · have hrw : distance_callback g cf [] a b = (0, []) := by
        simp [distance_callback, lookupPair, h]
      rw [hrw] at heq
      cases heq
      simp [distance_callback, lookupPair, h.symm]
    · have hba : ¬ cf b = cf a := fun h2 => h h2.symm
      by_cases ht : shortest_path_length g (cf a) (cf b) = ⊤
      · have hrw : distance_callback g cf [] a b = (⊤, []) := by
          simp [distance_callback, lookupPair, h, ht]
        rw [hrw] at heq
        cases heq
        have htba : shortest_path_length g (cf b) (cf a) = ⊤ := by
          rw [shortest_path_length_symm g hwf (cf b) (cf a)]
          exact ht
        simp [distance_callback, lookupPair, hba, htba]
      · have hrw : distance_callback g cf [] a b
            = (shortest_path_length g (cf a) (cf b),
               [((a, b), shortest_path_length g (cf a) (cf b))]) := by
          simp [distance_callback, lookupPair, h, ht]
        rw [hrw] at heq
        cases heq
        have hk : ¬ ((a, b) = (b, a)) := by
          intro h2
          exact hab (congrArg Prod.fst h2)
        simp [distance_callback, lookupPair, hk]

/-- Witness for claim C7 on the triangle graph: the symmetric and diagonal
    values of indices 0 and 1, and the cached reuse of the (0,1) entry by the
    flipped (1,0) query. -/
theorem claim_C7_oracle_symm_witness :
    ((distance_callback gTri (coordOf gTri) [] 0 1).1
        = (distance_callback gTri (coordOf gTri) [] 1 0).1
      ∧ (distance_callback gTri (coordOf gTri) [] 0 0).1 = 0)
    ∧ distance_callback gTri (coordOf gTri) [((0, 1), ((1 : ℤ) : XDist))] 1 0
        = (((1 : ℤ) : XDist), [((0, 1), ((1 : ℤ) : XDist))]) := by
  have h := claim_C7_oracle_symm gTri (by unfold MultiGraph.WF; decide) (coordOf gTri) 0 1
  exact ⟨⟨h.1, h.2.1⟩, h.2.2 _ _ (by decide) (by decide)⟩

/- ------------------------------------------------------------------
   GraphSimplifier claims C1, C5, C6.
   ------------------------------------------------------------------ -/

/-- Claim C1 (code bug): on an over-budget graph whose encounter-order
    pass-through processing reaches a node that still exists with exactly two
    neighbors, simplify_graph raises TypeError at the parallel-edge minimum
    computation — neighbors[0] is bound positionally to the data parameter of
    the networkx edge view and data=True repeats it — instead of contracting
    the node, shown here on the 3-node path A-B-C with max_nodes = 2. -/
theorem claim_C1_contraction_raises :
    simplify_graph gPath 3 2 = .error tyErr := by rfl

/-- Claim C5: a graph already at or under the node budget is returned as an
    unmodified copy (same node set, same node and edge counts). -/
theorem claim_C5_under_budget_identity (g : MultiGraph) (jt mx : Nat)
    (h : g.nodes.length ≤ mx) : simplify_graph g jt mx = .ok g := by
  unfold simplify_graph
  rw [if_pos h]

/-- Witness for claim C5: the 3-node triangle is under the default budget and
    comes back unchanged. -/
theorem claim_C5_under_budget_identity_witness :
    gTri.nodes.length ≤ 500 ∧ simplify_graph gTri 3 500 = .ok gTri :=
  ⟨by decide, claim_C5_under_budget_identity gTri 3 500 (by decide)⟩

/-- Counterexample to claim C6 as stated: an under-budget graph holding a
    lone degree-0 node is returned as is, so the returned graph contains a
    node of degree 0. -/
theorem claim_C6_counterexample :
    simplify_graph gIso 3 500 = .ok gIso ∧ pA ∈ gIso.nodes ∧ gIso.degree pA = 0 :=
  ⟨by rfl, by decide, by decide⟩

theorem passLoop_ok_eq (mx : Nat) :
    ∀ (l : List Coord) (s s' : MultiGraph), passLoop mx l s = .ok s' → s' = s := by
  intro l
  induction l with
  | nil =>
    intro s s' h
    cases h
    rfl
  | cons node rest ih =>
    intro s s' h
    unfold passLoop at h
    split_ifs at h
    · cases h; rfl
    · exact ih s s' h
    · exact ih s s' h

theorem removeNodes_length_le (g : MultiGraph) (l : List Coord) :
    (g.removeNodes l).nodes.length ≤ g.nodes.length :=
  List.length_filter_le _ _

/-- Nodes of degree 0 have no incident edges, so removing all of them leaves
    the edge list untouched. -/
theorem isolate_removal_keeps_edges (g : MultiGraph) :
    (g.removeNodes g.isolates).edges = g.edges := by
  unfold MultiGraph.removeNodes
  apply List.filter_eq_self.mpr
  intro e he
  rw [decide_eq_true_eq]
  have hend : ∀ y : Coord, (e.1 = y ∨ e.2.1 = y) → y ∉ g.isolates := by
    intro y hy hmem
    unfold MultiGraph.isolates at hmem
    have h0 := (List.mem_filter.mp hmem).2
    rw [decide_eq_true_eq] at h0
    have hpos : 0 < g.degree y := by
      unfold MultiGraph.degree
      rcases hy with hy | hy
      · have : 0 < g.edges.countP (fun e2 => decide (e2.1 = y)) :=
          List.countP_pos_iff.mpr ⟨e, he, by rw [decide_eq_true_eq]; exact hy⟩
        omega
      · have : 0 < g.edges.countP (fun e2 => decide (e2.2.1 = y)) :=
          List.countP_pos_iff.mpr ⟨e, he, by rw [decide_eq_true_eq]; exact hy⟩
        omega
    omega
  exact ⟨hend e.1 (Or.inl rfl), hend e.2.1 (Or.inr rfl)⟩

/-- After removing the isolated nodes, every remaining node keeps its old
    degree and hence has degree at least 1. -/
theorem no_isolates_after_cleanup (g : MultiGraph) :
    ∀ x ∈ (g.removeNodes g.isolates).nodes, (g.removeNodes g.isolates).degree x ≠ 0 := by
  intro x hx
  have hxf : x ∈ (g.nodes.filter (fun y => decide (y ∉ g.isolates))) := hx
  obtain ⟨hxn, hxp⟩ := List.mem_filter.mp hxf
  rw [decide_eq_true_eq] at hxp
  have hdeg : (g.removeNodes g.isolates).degree x = g.degree x := by
    unfold MultiGraph.degree
    rw [isolate_removal_keeps_edges]
  rw [hdeg]
  intro h0
  exact hxp (by
    unfold MultiGraph.isolates
    exact List.mem_filter.mpr ⟨hxn, by rw [decide_eq_true_eq]; exact h0⟩)

theorem postPrune_length_le (mx : Nat) (s : MultiGraph) :
    (postPrune mx s).nodes.length ≤ s.nodes.length := by
  unfold postPrune
  by_cases h : mx < s.nodes.length
  · simp only [if_pos h]
    exact le_trans (removeNodes_length_le _ _) (removeNodes_length_le _ _)
  · simp only [if_neg h]
    exact removeNodes_length_le _ _

theorem postPrune_no_isolates (mx : Nat) (s : MultiGraph) :
    ∀ x ∈ (postPrune mx s).nodes, (postPrune mx s).degree x ≠ 0 := by
  unfold postPrune
  exact no_isolates_after_cleanup _

/-- Claim C6 (amended): whenever simplify_graph returns a graph it has at
    most as many nodes as the input, and when the input exceeded the budget
    (so the cleanup pass ran) the output contains no node of degree 0; an
    at-or-under-budget input is returned unchanged, so a pre-existing
    degree-0 node survives in that case. -/
theorem claim_C6_amended (g : MultiGraph) (jt mx : Nat) (g' : MultiGraph)
    (h : simplify_graph g jt mx = .ok g') :
    g'.nodes.length ≤ g.nodes.length
    ∧ (mx < g.nodes.length → ∀ x ∈ g'.nodes, g'.degree x ≠ 0) := by
  unfold simplify_graph at h
  by_cases hb : g.nodes.length ≤ mx
  · rw [if_pos hb] at h
    cases h
    exact ⟨le_refl _, fun hlt => absurd hlt (not_lt.mpr hb)⟩
  · rw [if_neg hb] at h
    cases hp : passLoop mx (g.nodes.filter (fun x => decide (g.degree x = 2))) g with
    | error e =>
      rw [hp] at h
      cases h
    | ok s =>
      rw [hp] at h
      cases h
      have hs : s = g := passLoop_ok_eq mx _ g s hp
      subst hs
      exact ⟨postPrune_length_le mx s, fun _ => postPrune_no_isolates mx s⟩

/-- Witness for the amended claim C6: six nodes in three disjoint edges with
    budget 4 prune down to four nodes, none isolated. -/
theorem claim_C6_amended_witness :
    gSixRes.nodes.length ≤ gSix.nodes.length
    ∧ (4 < gSix.nodes.length → ∀ x ∈ gSixRes.nodes, gSixRes.degree x ≠ 0) :=
  claim_C6_amended gSix 3 4 gSixRes (by rfl)

/- ------------------------------------------------------------------
   GraphBuilder claims C8, C10.
   ------------------------------------------------------------------ -/

theorem buildGraph_of_all_short (geo : Coord → Coord → ℤ) :
    ∀ (segs : List (List Coord)) (g0 : MultiGraph), (∀ s ∈ segs, s.length < 2) →
      segs.foldl (fun g seg => if seg.length < 2 then g else addSegmentEdges geo g seg) g0
        = g0 := by
  intro segs
  induction segs with
  | nil => intro g0 _; rfl
  | cons a t ih =>
    intro g0 h
    rw [List.foldl_cons, if_pos (h a (List.mem_cons_self a t))]
    exact ih g0 (fun s hs => h s (List.mem_cons_of_mem a hs))

theorem create_some_eq_build (geo : Coord → Coord → ℤ) (segs : List (List Coord))
    (g : MultiGraph) (hg : create_road_network_graph geo segs = some g) :
    g = buildGraph geo segs := by
  simp only [create_road_network_graph] at hg
  by_cases he : segs = []
  · rw [if_pos he] at hg
    cases hg
  · rw [if_neg he] at hg
    by_cases hz : (buildGraph geo segs).nodes.length = 0
        ∨ (buildGraph geo segs).edges.length = 0
    · rw [if_pos hz] at hg
      cases hg
    · rw [if_neg hz] at hg
      cases hg
      rfl

/-- Claim C8: the builder returns the None sentinel exactly when the segment
    list is empty or the graph built from it has zero nodes or zero edges; an
    input whose segments all have fewer than two points contributes nothing
    and yields None; and any non-None result is the built multigraph itself
    (the embedding is total, so no exception is raised). -/
theorem claim_C8_builder_sentinel (geo : Coord → Coord → ℤ) (segs : List (List Coord)) :
    (create_road_network_graph geo segs = none
      ↔ segs = [] ∨ (buildGraph geo segs).nodes.length = 0
          ∨ (buildGraph geo segs).edges.length = 0)
    ∧ ((∀ s ∈ segs, s.length < 2) → create_road_network_graph geo segs = none)
    ∧ (∀ g, create_road_network_graph geo segs = some g → g = buildGraph geo segs) := by
  refine ⟨?_, ?_, ?_⟩
  · constructor
    · intro h
      by_cases he : segs = []
      · exact Or.inl he
      · right
        simp only [create_road_network_graph, if_neg he] at h
        by_cases hz : (buildGraph geo segs).nodes.length = 0
            ∨ (buildGraph geo segs).edges.length = 0
        · exact hz
        · rw [if_neg hz] at h
          cases h
    · intro h
      simp only [create_road_network_graph]
      by_cases he : segs = []
      · rw [if_pos he]
      · rw [if_neg he]
        rcases h with h | h
        · exact absurd h he
        · rw [if_pos h]
  · intro h
    simp only [create_road_network_graph]
    by_cases he : segs = []
    · simp [he]
    · rw [if_neg he]
      have hb : buildGraph geo segs = { nodes := [], edges := [] } :=
        buildGraph_of_all_short geo segs { nodes := [], edges := [] } h
      rw [hb]
      simp
  · exact fun g hg => create_some_eq_build geo segs g hg

/-- Witness for claim C8: a single one-point segment is ignored entirely and
    the builder reports the sentinel. -/
theorem claim_C8_builder_sentinel_witness :
    create_road_network_graph geoOne [[pA]] = none :=
  (claim_C8_builder_sentinel geoOne [[pA]]).2.1 (by decide)

theorem mem_addNode (l : List Coord) (y x : Coord) :
    x ∈ addNode l y ↔ x ∈ l ∨ x = y := by
  unfold addNode
  by_cases h : y ∈ l
  · rw [if_pos h]
    exact ⟨Or.inl, fun hor => hor.elim id (fun hxy => hxy ▸ h)⟩
  · rw [if_neg h, List.mem_append, List.mem_singleton]

theorem degree_add_edge (g : MultiGraph) (u v : Coord) (w : ℤ) (x : Coord) :
    (g.add_edge u v w).degree x
      = g.degree x + ((if u = x then 1 else 0) + (if v = x then 1 else 0)) := by
  unfold MultiGraph.add_edge MultiGraph.degree
  simp only [List.countP_append, List.countP_cons, List.countP_nil]
  by_cases hu : u = x <;> by_cases hv : v = x <;>
    simp [hu, hv] <;> omega

theorem degInv_add_edge (g : MultiGraph) (u v : Coord) (w : ℤ)
    (hg : ∀ x ∈ g.nodes, 1 ≤ g.degree x) :
    ∀ x ∈ (g.add_edge u v w).nodes, 1 ≤ (g.add_edge u v w).degree x := by
  intro x hx
  rw [degree_add_edge]
  have hmem : x ∈ g.nodes ∨ x = u ∨ x = v := by
    have : x ∈ addNode (addNode g.nodes u) v := hx
    rcases (mem_addNode _ v x).mp this with h1 | h1
    · rcases (mem_addNode _ u x).mp h1 with h2 | h2
      · exact Or.inl h2
      · exact Or.inr (Or.inl h2)
    · exact Or.inr (Or.inr h1)
  rcases hmem with h | h | h
  · have := hg x h
    omega
  · rw [if_pos h.symm]
    omega
  · rw [if_pos h.symm]
    omega

theorem degInv_add_edge_with_weight (geo : Coord → Coord → ℤ) (g : MultiGraph) (u v : Coord)
    (hg : ∀ x ∈ g.nodes, 1 ≤ g.degree x) :
    ∀ x ∈ (add_edge_with_weight geo g u v).nodes, 1 ≤ (add_edge_with_weight geo g u v).degree x := by
  unfold add_edge_with_weight
  by_cases h : u = v
  · rw [if_pos h]
    exact hg
  · rw [if_neg h]
    exact degInv_add_edge g u v (geo u v) hg

theorem degInv_pairs (geo : Coord → Coord → ℤ) :
    ∀ (ps : List (Coord × Coord)) (g : MultiGraph), (∀ x ∈ g.nodes, 1 ≤ g.degree x) →
      ∀ x ∈ (ps.foldl (fun h p => add_edge_with_weight geo h p.1 p.2) g).nodes,
        1 ≤ (ps.foldl (fun h p => add_edge_with_weight geo h p.1 p.2) g).degree x := by
  intro ps
  induction ps with
  | nil => intro g hg; exact hg
  | cons p t ih =>
    intro g hg
    rw [List.foldl_cons]
    exact ih _ (degInv_add_edge_with_weight geo g p.1 p.2 hg)

theorem degInv_buildGraph (geo : Coord → Coord → ℤ) (segs : List (List Coord)) :
    ∀ x ∈ (buildGraph geo segs).nodes, 1 ≤ (buildGraph geo segs).degree x := by
  unfold buildGraph
  have main : ∀ (ss : List (List Coord)) (g : MultiGraph), (∀ x ∈ g.nodes, 1 ≤ g.degree x) →
      ∀ x ∈ (ss.foldl (fun g seg => if seg.length < 2 then g else addSegmentEdges geo g seg) g).nodes,
        1 ≤ (ss.foldl (fun g seg => if seg.length < 2 then g else addSegmentEdges geo g seg) g).degree x := by
    intro ss
    induction ss with
    | nil => intro g hg; exact hg
    | cons a t ih =>
      intro g hg
      rw [List.foldl_cons]
      by_cases h : a.length < 2
      · rw [if_pos h]
        exact ih g hg
      · rw [if_neg h]
        exact ih _ (degInv_pairs geo (a.zip a.tail) g hg)
  exact main segs { nodes := [], edges := [] } (by intro x hx; cases hx)

/-- Claim C10: every non-None graph returned by create_road_network_graph has
    no isolated node — nodes are only ever introduced as endpoints of an edge
    added between two distinct coordinates, so every node has degree at
    least 1. -/
theorem claim_C10_no_isolated_nodes (geo : Coord → Coord → ℤ) (segs : List (List Coord))
    (g : MultiGraph) (h : create_road_network_graph geo segs = some g) :
    ∀ x ∈ g.nodes, 1 ≤ g.degree x := by
  have hg : g = buildGraph geo segs := create_some_eq_build geo segs g h
  rw [hg]
  exact degInv_buildGraph geo segs

/-- Witness for claim C10: the two-point segment A-B builds a graph whose
    node A has degree 1. -/
theorem claim_C10_no_isolated_nodes_witness :
    pA ∈ (buildGraph geoOne [[pA, pB]]).nodes
    ∧ 1 ≤ (buildGraph geoOne [[pA, pB]]).degree pA :=
  ⟨by decide,
    claim_C10_no_isolated_nodes geoOne [[pA, pB]] (buildGraph geoOne [[pA, pB]]) (by rfl)
      pA (by decide)⟩

/- ------------------------------------------------------------------
   TourOptimizer claims C9, C4, C2, C3.
   ------------------------------------------------------------------ -/

theorem acoLoopGo_exit (d : Nat → Nat → XDist) (numIter : Nat)
    (schedule : Nat → List (List Nat)) :
    ∀ (l : List Nat) (s : AcoState), (∀ j ∈ l, j < numIter) →
      (∀ i, (acoLoopGo d numIter schedule l s).stoppedAt = some i →
          numIter / 5 < i - (acoLoopGo d numIter schedule l s).state.lastImp
          ∧ numIter / 2 < i ∧ i < numIter
          ∧ (acoLoopGo d numIter schedule l s).itersRun = i + 1)
      ∧ ((acoLoopGo d numIter schedule l s).stoppedAt = none →
          (acoLoopGo d numIter schedule l s).itersRun = numIter) := by
  intro l
  induction l with
  | nil =>
    intro s _
    exact ⟨fun i hi => (nomatch hi), fun _ => rfl⟩
  | cons a t ih =>
    intro s hb
    simp only [acoLoopGo]
    by_cases hc : numIter / 5 < a - (stepAnts d a (schedule a) s).lastImp ∧ numIter / 2 < a
    · rw [if_pos hc]
      refine ⟨fun i hi => ?_, fun hn => nomatch hn⟩
      cases hi
      exact ⟨hc.1, hc.2, hb a (List.mem_cons_self a t), rfl⟩
    · rw [if_neg hc]
      exact ih _ (fun j hj => hb j (List.mem_cons_of_mem a hj))

/-- Claim C9: the iteration loop leaves the range of num_iterations early
    only by the break whose guard requires more than num_iterations / 5
    improvement-free rounds and an iteration index past num_iterations / 2
    (hence at least half the iterations elapsed); with no early stop the full
    iteration count runs — there is no other exit. -/
theorem claim_C9_early_stopping (d : Nat → Nat → XDist) (numIter : Nat)
    (schedule : Nat → List (List Nat)) :
    (∀ i, (runAcoLoop d numIter schedule).stoppedAt = some i →
        numIter / 5 < i - (runAcoLoop d numIter schedule).state.lastImp
        ∧ numIter / 2 < i ∧ i < numIter
        ∧ (runAcoLoop d numIter schedule).itersRun = i + 1)
    ∧ ((runAcoLoop d numIter schedule).stoppedAt = none →
        (runAcoLoop d numIter schedule).itersRun = numIter) :=
  acoLoopGo_exit d numIter schedule (List.range numIter) ⟨none, ⊤, 0⟩
    (fun _ hj => List.mem_range.mp hj)

/-- Witness for claim C9: ten iterations with no ant ever improving stop
    early exactly at iteration index 6, the first index past both
    thresholds. -/
theorem claim_C9_early_stopping_witness :
    10 / 5 < 6 - (runAcoLoop dTop 10 schedEmpty).state.lastImp
    ∧ 10 / 2 < 6 ∧ 6 < 10 ∧ (runAcoLoop dTop 10 schedEmpty).itersRun = 6 + 1 :=
  (claim_C9_early_stopping dTop 10 schedEmpty).1 6 (by decide)

theorem stepAnts_no_update (d : Nat → Nat → XDist) (i : Nat) :
    ∀ (tours : List (List Nat)) (s : AcoState), s.bestDist = ⊤ →
      (∀ t ∈ tours, cycleDist d t = ⊤) → stepAnts d i tours s = s := by
  intro tours
  induction tours with
  | nil => intro s _ _; rfl
  | cons a t ih =>
    intro s hs hall
    unfold stepAnts
    rw [List.foldl_cons]
    have hcond : ¬ (cycleDist d a < s.bestDist) := by
      rw [hall a (List.mem_cons_self a t), hs]
      exact lt_irrefl ⊤
    rw [if_neg hcond]
    exact ih s hs (fun t2 ht2 => hall t2 (List.mem_cons_of_mem a ht2))

theorem acoLoopGo_state_frozen (d : Nat → Nat → XDist) (numIter : Nat)
    (schedule : Nat → List (List Nat)) :
    ∀ (l : List Nat), (∀ i ∈ l, ∀ t ∈ schedule i, cycleDist d t = ⊤) →
      ∀ s : AcoState, s.bestDist = ⊤ → (acoLoopGo d numIter schedule l s).state = s := by
  intro l
  induction l with
  | nil => intro _ s _; rfl
  | cons a t ih =>
    intro hall s hs
    simp only [acoLoopGo]
    rw [stepAnts_no_update d a (schedule a) s hs (hall a (List.mem_cons_self a t))]
    by_cases hc : numIter / 5 < a - s.lastImp ∧ numIter / 2 < a
    · rw [if_pos hc]
    · rw [if_neg hc]
      exact ih (fun i hi => hall i (List.mem_cons_of_mem a hi)) s hs

theorem pathDist_ne_top_const (n : Nat) (P : Nat → Bool) (d : Nat → Nat → XDist)
    (hcross : ∀ a, a < n → ∀ b, b < n → P a ≠ P b → d a b = ⊤) :
    ∀ l : List Nat, (∀ m ∈ l, m < n) → pathDist d l ≠ ⊤ →
      ∀ a ∈ l, ∀ b ∈ l, P a = P b := by
  intro l
  induction l with
  | nil => intro _ _ a ha; cases ha
  | cons x rest ih =>
    intro hb hne a ha b hb2
    cases rest with
    | nil =>
      have hax : a = x := by simpa using ha
      have hbx : b = x := by simpa using hb2
      rw [hax, hbx]
    | cons y rest2 =>
      have hsplit : pathDist d (x :: y :: rest2) = d x y + pathDist d (y :: rest2) := rfl
      rw [hsplit] at hne
      have hdxy : d x y ≠ ⊤ := fun h => hne (by rw [h]; exact top_add _)
      have hrest : pathDist d (y :: rest2) ≠ ⊤ := fun h => hne (by rw [h]; exact add_top _)
      have hxy : P x = P y := by
        by_contra hc
        exact hdxy (hcross x (hb x (List.mem_cons_self x _)) y
          (hb y (List.mem_cons_of_mem x (List.mem_cons_self y rest2))) hc)
      have hconst : ∀ a2 ∈ y :: rest2, ∀ b2 ∈ y :: rest2, P a2 = P b2 :=
        ih (fun m hm => hb m (List.mem_cons_of_mem x hm)) hrest
      rcases List.mem_cons.mp ha with hax | ha2
      · rcases List.mem_cons.mp hb2 with hbx | hb3
        · rw [hax, hbx]
        · rw [hax, hxy]
          exact hconst y (List.mem_cons_self y rest2) b hb3
      · rcases List.mem_cons.mp hb2 with hbx | hb3
        · rw [hbx]
          exact (hconst a ha2 y (List.mem_cons_self y rest2)).trans hxy.symm
        · exact hconst a ha2 b hb3

theorem cycleDist_top_of_two_classes (n : Nat) (P : Nat → Bool) (d : Nat → Nat → XDist)
    (hcross : ∀ a, a < n → ∀ b, b < n → P a ≠ P b → d a b = ⊤)
    (t : List Nat) (hbound : ∀ m ∈ t, m < n)
    (x : Nat) (hx : x ∈ t) (y : Nat) (hy : y ∈ t) (hPxy : P x ≠ P y) :
    cycleDist d t = ⊤ := by
  by_contra hne
  cases t with
  | nil => cases hx
  | cons h rest =>
    have hpd : pathDist d ((h :: rest) ++ [h]) ≠ ⊤ := hne
    have hbound2 : ∀ m ∈ (h :: rest) ++ [h], m < n := by
      intro m hm
      rcases List.mem_append.mp hm with hm | hm
      · exact hbound m hm
      · rw [List.mem_singleton] at hm
        subst hm
        exact hbound m (List.mem_cons_self m rest)
    exact hPxy (pathDist_ne_top_const n P d hcross _ hbound2 hpd
      x (List.mem_append_left _ hx) y (List.mem_append_left _ hy))

/-- Counterexample to claim C4 as stated: the single ant tour [0, 1] of the
    only iteration is an incomplete construction — not a permutation of the
    triangle's three indices — so every ant in every iteration fails to
    produce a complete, finite-cost tour; yet the solver does not report
    failure: it returns the partial tour A-B-A instead of None. -/
theorem claim_C4_counterexample :
    ¬ (([0, 1] : List Nat).Perm (List.range gTri.nodes.length))
    ∧ solve_route_with_aco gTri 1 none 0 schedIncomplete = some [pA, pB, pA]
    ∧ solve_route_with_aco gTri 1 none 0 schedIncomplete ≠ none :=
  ⟨by decide, by decide, by decide⟩

/-- Claim C4 (amended): the None guarantee holds for the infinite-cost
    failure mode only.  When every ant construction is complete (a
    permutation of all node indices, the library's TSP behaviour) but the
    graph splits into two nonempty classes between which every oracle
    distance is infinite (the disconnected case, the claim's own example),
    every ant distance is infinite, no candidate ever beats the initial
    infinity, and the solver returns None rather than a partial or
    infinite-cost tour.  A finite-cost incomplete construction is instead
    returned, as the counterexample shows. -/
theorem claim_C4_no_valid_tour_returns_none (g : MultiGraph) (numIter : Nat)
    (startIdx : Option Nat) (randPick : Nat) (schedule : Nat → List (List Nat))
    (P : Nat → Bool)
    (hcomp : ∀ i, i < numIter → ∀ t ∈ schedule i, t.Perm (List.range g.nodes.length))
    (hcross : ∀ a, a < g.nodes.length → ∀ b, b < g.nodes.length → P a ≠ P b →
        lfunc g a b = ⊤)
    (x : Nat) (hxn : x < g.nodes.length) (hxP : P x = true)
    (y : Nat) (hyn : y < g.nodes.length) (hyP : P y = false) :
    solve_route_with_aco g numIter startIdx randPick schedule = none := by
  simp only [solve_route_with_aco]
  by_cases hsmall : g.nodes.length < 2
  · rw [if_pos hsmall]
  · rw [if_neg hsmall]
    have hall : ∀ i ∈ List.range numIter, ∀ t ∈ schedule i, cycleDist (lfunc g) t = ⊤ := by
      intro i hi t ht
      have hperm := hcomp i (List.mem_range.mp hi) t ht
      have hbound : ∀ m ∈ t, m < g.nodes.length := fun m hm =>
        List.mem_range.mp (hperm.mem_iff.mp hm)
      have hxt : x ∈ t := hperm.mem_iff.mpr (List.mem_range.mpr hxn)
      have hyt : y ∈ t := hperm.mem_iff.mpr (List.mem_range.mpr hyn)
      exact cycleDist_top_of_two_classes g.nodes.length P (lfunc g) hcross t hbound
        x hxt y hyt (by rw [hxP, hyP]; decide)
    have hstate : (runAcoLoop (lfunc g) numIter schedule).state = ⟨none, ⊤, 0⟩ :=
      acoLoopGo_state_frozen (lfunc g) numIter schedule (List.range numIter) hall
        ⟨none, ⊤, 0⟩ rfl
    rw [hstate]
    rfl

/-- Witness for claim C4: the disconnected graph gDisc (components A-B and
    D-E), one complete ant tour per iteration, yields None. -/
theorem claim_C4_no_valid_tour_returns_none_witness :
    solve_route_with_aco gDisc 1 none 0 schedFull4 = none :=
  claim_C4_no_valid_tour_returns_none gDisc 1 none 0 schedFull4 compDisc
    (by decide) (by decide) 0 (by decide) (by decide) 2 (by decide) (by decide)

/-- Counterexample to claim C2 as stated: on the 3-node triangle (where
    complete constructions exist), a best-tour candidate coming from the
    incomplete finite-cost construction [0, 1] is not discarded as invalid —
    the solver closes and returns it, so the returned route has 3 entries
    instead of N+1 = 4 and never visits node C. -/
theorem claim_C2_counterexample :
    solve_route_with_aco gTri 1 none 0 schedIncomplete = some [pA, pB, pA]
    ∧ [pA, pB, pA].length ≠ gTri.nodes.length + 1
    ∧ pC ∉ [pA, pB, pA] :=
  ⟨by decide, by decide, by decide⟩

theorem getLast?_ne_head_of_nodup (a b : Nat) (r : List Nat)
    (hnd : (a :: b :: r).Nodup) : (a :: b :: r).getLast? ≠ some a := by
  intro h
  rw [List.getLast?_cons_cons] at h
  exact (List.nodup_cons.mp hnd).1 (List.mem_of_mem_getLast? h)

/-- Claim C2 (amended): the solver discards a best candidate only when it is
    falsy (None or empty); an incomplete candidate is closed and returned
    as is.  When the loop's best candidate is a complete construction — a
    permutation of all N node indices, N at least 2 — the returned route is
    its closure: N+1 indices, first equal to last, every index visited
    exactly once (the start index twice, as the closing repeat). -/
theorem claim_C2_amended (g : MultiGraph) (numIter : Nat) (startIdx : Option Nat)
    (randPick : Nat) (schedule : Nat → List (List Nat)) (t : List Nat)
    (h2 : 2 ≤ g.nodes.length)
    (hbest : (runAcoLoop (lfunc g) numIter schedule).state.best = some t)
    (hperm : t.Perm (List.range g.nodes.length)) :
    solve_route_with_aco g numIter startIdx randPick schedule
        = some ((closeTour t).map (coordOf g))
    ∧ (closeTour t).length = g.nodes.length + 1
    ∧ (closeTour t).head? = t.head?
    ∧ (closeTour t).getLast? = t.head?
    ∧ (∀ i, i < g.nodes.length →
        (closeTour t).count i = 1 + (if t.head? = some i then 1 else 0))
    ∧ ((closeTour t).map (coordOf g)).head? = ((closeTour t).map (coordOf g)).getLast? := by
  have hlen : t.length = g.nodes.length := by
    rw [hperm.length_eq, List.length_range]
  have hnd : t.Nodup := hperm.nodup_iff.mpr (List.nodup_range _)
  cases t with
  | nil =>
    rw [List.length_nil] at hlen
    omega
  | cons a rest =>
    cases rest with
    | nil =>
      rw [List.length_singleton] at hlen
      omega
    | cons b r =>
      have hclose : closeTour (a :: b :: r) = (a :: b :: r) ++ [a] := by
        simp only [closeTour]
        rw [if_neg (getLast?_ne_head_of_nodup a b r hnd)]
      refine ⟨?_, ?_, ?_, ?_, ?_, ?_⟩
      · simp only [solve_route_with_aco]
        rw [if_neg (not_lt.mpr h2), hbest]
        simp only [finishTour]
        rw [if_neg (List.cons_ne_nil a (b :: r))]
      · rw [hclose, List.length_append, hlen]
        rfl
      · rw [hclose]
        rfl
      · rw [hclose, List.getLast?_concat]
        rfl
      · intro i hi
        rw [hclose, List.count_append]
        have h1 : (a :: b :: r).count i = 1 := by
          rw [hperm.count_eq i]
          exact List.count_eq_one_of_mem (List.nodup_range _) (List.mem_range.mpr hi)
        rw [h1, List.count_singleton']
        by_cases hai : a = i
        · simp [hai]
        · simp [hai]
      · rw [hclose, List.head?_map, List.getLast?_map, List.getLast?_concat]
        rfl

/-- Witness for the amended claim C2: the complete best tour [0, 1, 2] on the
    triangle closes to a 4-entry route, first equal to last, each node
    visited once. -/
theorem claim_C2_amended_witness :
    solve_route_with_aco gTri 1 none 0 schedFull3
        = some ((closeTour [0, 1, 2]).map (coordOf gTri))
    ∧ (closeTour [0, 1, 2]).length = gTri.nodes.length + 1
    ∧ (closeTour [0, 1, 2]).head? = ([0, 1, 2] : List Nat).head?
    ∧ (closeTour [0, 1, 2]).getLast? = ([0, 1, 2] : List Nat).head?
    ∧ (∀ i, i < gTri.nodes.length →
        (closeTour [0, 1, 2]).count i
          = 1 + (if ([0, 1, 2] : List Nat).head? = some i then 1 else 0))
    ∧ ((closeTour [0, 1, 2]).map (coordOf gTri)).head?
        = ((closeTour [0, 1, 2]).map (coordOf gTri)).getLast? :=
  claim_C2_amended gTri 1 none 0 schedFull3 [0, 1, 2] (by decide) (by decide) (by decide)

/-- The start-node selection of aco_solver.py 78-86 never reaches the solver:
    the result is invariant under both the explicit start index and the
    random pick (the two sides are definitionally equal because the binding
    is dead). -/
theorem solve_ignores_start (g : MultiGraph) (numIter : Nat)
    (schedule : Nat → List (List Nat)) (s1 s2 : Option Nat) (r1 r2 : Nat) :
    solve_route_with_aco g numIter s1 r1 schedule
      = solve_route_with_aco g numIter s2 r2 schedule := rfl

/-- Claim C3 (code bug): the selected start node is computed (index 1 of the
    triangle, node B) but never forwarded to the ant colony, so the best
    tour decides the route's endpoints: with best tour [0, 1, 2] the returned
    route begins and ends at node A, not at the selected node B. -/
theorem claim_C3_start_index_unused :
    effectiveStartIdx gTri.nodes.length (some 1) 0 = 1
    ∧ coordOf gTri 1 = pB
    ∧ solve_route_with_aco gTri 1 (some 1) 0 schedFull3 = some [pA, pB, pC, pA]
    ∧ ([pA, pB, pC, pA] : List Coord).head? = some pA
    ∧ ([pA, pB, pC, pA] : List Coord).getLast? = some pA
    ∧ pA ≠ pB :=
  ⟨by decide, by decide, by decide, by decide, by decide, by decide⟩
